import Mathlib

/-! # lib3dtiles: tile tree, bounding volumes and external tileset inclusion

A shallow embedding of `src/3dtiles/3dtiles.hpp` (the data model) and of
`src/3dtiles/reader.cpp` (`include` and `Archive::tileset`), followed by the
properties proved about them.

Conventions of the embedding:

* `double` is a type parameter `F` and `boost::any` a type parameter `A`:
  `include` and `Archive::tileset` never inspect either.
* `std::shared_ptr<Tile>` is an owned, non-null value: the tree has no sharing.
* The exception thrown by `istream`/`read` is a value of a type parameter `E`.
* `include` can recurse for ever (through documents that refer to each other),
  so it takes a fuel argument and its result says when the fuel ran out.
* The OpenMP tasks of `include` run in program order (what the code does
  without OpenMP); the reads of the archive are recorded in the order
  they are issued.
-/

namespace threedtiles

/-! ## Data model (`3dtiles.hpp`) -/

abbrev OptString := Option String

abbrev ExtensionList := List String

/-- The enum of `UTILITY_GENERATE_ENUM(Refinement, ...)`. -/
inductive Refinement where
  | replace
  | add
  deriving DecidableEq, Repr

/-- The `struct CommonBase`: `Extensions` is a `std::map<std::string, boost::any>`,
kept as an association list. -/
structure CommonBase (A : Type) where
  extensions : List (String × A)
  extras : A

/-- The type `math::Point3`. -/
structure Point3 (F : Type) where
  x : F
  y : F
  z : F

/-- The type `math::Extents3`: lower-left and upper-right corner. -/
structure Extents3 (F : Type) where
  ll : Point3 F
  ur : Point3 F

/-- The type `math::Matrix4`. -/
abbrev Matrix4 (F : Type) := Fin 4 → Fin 4 → F

structure Box (F A : Type) extends CommonBase A where
  center : Point3 F
  x : Point3 F
  y : Point3 F
  z : Point3 F

structure Region (F A : Type) extends CommonBase A where
  extents : Extents3 F

structure Sphere (F A : Type) extends CommonBase A where
  center : Point3 F
  radius : F

/-- The variant `using BoundingVolume = boost::variant<Box, Region, Sphere>`. -/
inductive BoundingVolume (F A : Type) where
  | box (b : Box F A)
  | region (r : Region F A)
  | sphere (s : Sphere F A)

structure Property (F A : Type) extends CommonBase A where
  minimum : F
  maximum : F

/-- The map `std::map<std::string, Property>`, kept as an association list. -/
abbrev Properties (F A : Type) := List (String × Property F A)

structure TileContent (F A : Type) extends CommonBase A where
  boundingVolume : Option (BoundingVolume F A)
  uri : String

structure Tile (F A : Type) extends CommonBase A where
  boundingVolume : BoundingVolume F A
  viewerRequestVolume : Option (BoundingVolume F A)
  geometricError : F
  refine : Option Refinement
  transform : Option (Matrix4 F)
  content : Option (TileContent F A)
  children : List (Tile F A)

structure Asset (A : Type) extends CommonBase A where
  version : String
  tilesetVersion : OptString

structure Tileset (F A : Type) extends CommonBase A where
  asset : Asset A
  properties : Properties F A
  geometricError : F
  root : Tile F A
  extensionsUsed : ExtensionList
  extensionsRequired : ExtensionList

/-! ## Results of a computation that may throw or may not return -/

/-- What a call yields: a value, the exception it threw, or no answer within
the fuel it was given. -/
inductive Outcome (E α : Type) where
  | ok (a : α)
  | error (e : E)
  | outOfFuel

/-! ## Collaborators of `reader.cpp` that live outside the repository's sources -/

/-- The archive as `Archive::tileset` sees it: `read(*istream(path), ts, path)`
either fills a tileset or throws. -/
structure Archive (F A E : Type) where
  read : String → Except E (Tileset F A)

/-- What `reader.cpp` takes from headers that are not part of the sources:
`utility::Uri(uri).absolute()` and the default value that `reader.hpp` gives
to the `includeExternal` argument of `Archive::tileset` (used by the
one-argument call in `include`). -/
structure Externals where
  absolute : String → Bool
  defaultIncludeExternal : Bool

/-- The predicate `boost::algorithm::iends_with`: suffix test that ignores case
(of the letters `A` to `Z`). -/
def iends_with (input test : String) : Bool :=
  (test.toList.map Char.toLower).isSuffixOf (input.toList.map Char.toLower)

/-! ## `reader.cpp` -/

section Reader

variable {F A E : Type}

/-- The loop `for (auto &child : root->children) include(archive, child);`
with the body `inc`: children in list order, the first exception ends the
loop. The second component collects the archive reads. -/
def includeChildren (inc : Tile F A → Outcome E (Tile F A × List String)) :
    List (Tile F A) → Outcome E (List (Tile F A) × List String)
  | [] => .ok ([], [])
  | child :: rest =>
    match inc child with
    | .ok (child', r1) =>
      match includeChildren inc rest with
      | .ok (rest', r2) => .ok (child' :: rest', r1 ++ r2)
      | .error e => .error e
      | .outOfFuel => .outOfFuel
    | .error e => .error e
    | .outOfFuel => .outOfFuel

/-- Body of `Archive::tileset(path, includeExternal)` over the function `inc`
that stands for `include(*this, ·)`. Returns the tileset and the paths read,
in order. -/
def tilesetWith (inc : Tile F A → Outcome E (Tile F A × List String))
    (archive : Archive F A E) (path : String) (includeExternal : Bool) :
    Outcome E (Tileset F A × List String) :=
  if !includeExternal then
    match archive.read path with
    | .ok ts => .ok (ts, [path])
    | .error e => .error e
  else
    match archive.read path with
    | .ok ts =>
      match inc ts.root with
      | .ok (root, r) => .ok ({ ts with root := root }, path :: r)
      | .error e => .error e
      | .outOfFuel => .outOfFuel
    | .error e => .error e

/-- The function `void include(const Archive &archive, Tile::pointer &root)` (the word
`include` is reserved in Lean): the tile that ends up in the slot `root`, and
the paths read from the archive, in order. -/
def includeTile (x : Externals) (archive : Archive F A E) :
    Nat → Tile F A → Outcome E (Tile F A × List String)
  | 0, _ => .outOfFuel
  | fuel + 1, root =>
    if !root.children.isEmpty then
      match includeChildren (includeTile x archive fuel) root.children with
      | .ok (children, r) => .ok ({ root with children := children }, r)
      | .error e => .error e
      | .outOfFuel => .outOfFuel
    else
      match root.content with
      | some content =>
        if x.absolute content.uri then .ok (root, [])
        else if iends_with content.uri ".json" then
          match tilesetWith (includeTile x archive fuel) archive content.uri
              x.defaultIncludeExternal with
          | .ok (ts, r1) =>
            match includeTile x archive fuel ts.root with
            | .ok (root', r2) => .ok (root', r1 ++ r2)
            | .error e => .error e
            | .outOfFuel => .outOfFuel
          | .error e => .error e
          | .outOfFuel => .outOfFuel
        else .ok (root, [])
      | none => .ok (root, [])

/-- The method `Tileset Archive::tileset(const fs::path &path, bool includeExternal) const`:
the tileset it returns and the paths it read, in order. -/
def Archive.tileset (x : Externals) (archive : Archive F A E) (fuel : Nat)
    (path : String) (includeExternal : Bool) :
    Outcome E (Tileset F A × List String) :=
  tilesetWith (includeTile x archive fuel) archive path includeExternal

/-! ## The node states of the resolver -/

/-- UNRESOLVED: no children, a content descriptor, and a content URI that is
not absolute and ends in `.json` (the test `include` makes before it reads
another document). -/
def Tile.unresolved (x : Externals) (t : Tile F A) : Bool :=
  t.children.isEmpty &&
    match t.content with
    | some content => !x.absolute content.uri && iends_with content.uri ".json"
    | none => false

/-- The tile `d` is a node of the tree rooted at `t`. -/
inductive Tile.Node : Tile F A → Tile F A → Prop where
  | self (t : Tile F A) : Tile.Node t t
  | child {t c d : Tile F A} : c ∈ t.children → Tile.Node c d → Tile.Node t d

mutual
/-- Every node of the tree satisfies `p`. -/
def Tile.allNodes (p : Tile F A → Bool) : Tile F A → Bool
  | ⟨b, bv, vrv, ge, rf, tr, co, cs⟩ =>
    p ⟨b, bv, vrv, ge, rf, tr, co, cs⟩ && allNodesList p cs
/-- Every node of every tree of the list satisfies `p`. -/
def allNodesList (p : Tile F A → Bool) : List (Tile F A) → Bool
  | [] => true
  | c :: cs => c.allNodes p && allNodesList p cs
end

/-- The tree has no UNRESOLVED node. -/
def Tile.resolved (x : Externals) (t : Tile F A) : Bool :=
  t.allNodes (fun d => !d.unresolved x)

mutual
/-- Number of levels of the tree (a childless tile has depth 1). -/
def Tile.depth : Tile F A → Nat
  | ⟨_, _, _, _, _, _, _, cs⟩ => depthList cs + 1
/-- Largest depth in a list of trees. -/
def depthList : List (Tile F A) → Nat
  | [] => 0
  | c :: cs => max c.depth (depthList cs)
end

/-! ## One unfolding of `include` -/

/-- The body of `include` with its recursive calls made through `inc`. -/
def includeBody (x : Externals) (archive : Archive F A E)
    (inc : Tile F A → Outcome E (Tile F A × List String)) (root : Tile F A) :
    Outcome E (Tile F A × List String) :=
  if !root.children.isEmpty then
    match includeChildren inc root.children with
    | .ok (children, r) => .ok ({ root with children := children }, r)
    | .error e => .error e
    | .outOfFuel => .outOfFuel
  else
    match root.content with
    | some content =>
      if x.absolute content.uri then .ok (root, [])
      else if iends_with content.uri ".json" then
        match tilesetWith inc archive content.uri x.defaultIncludeExternal with
        | .ok (ts, r1) =>
          match inc ts.root with
          | .ok (root', r2) => .ok (root', r1 ++ r2)
          | .error e => .error e
          | .outOfFuel => .outOfFuel
        | .error e => .error e
        | .outOfFuel => .outOfFuel
      else .ok (root, [])
    | none => .ok (root, [])

/-- Either `a` is `b`, or `a` ran out of fuel. -/
def Outcome.le {α : Type} (a b : Outcome E α) : Prop :=
  a = .outOfFuel ∨ a = b

end Reader

/-! ## Tiles from which the walk arrives at an unreadable document -/

section Failure

variable {F A E : Type}

/-- In `FailsAt x archive e t` the walk of `include` that starts at `t` arrives
at an UNRESOLVED tile whose document the archive cannot open or decode, the
read throwing `e`. The tile is `t` itself (`here`), or lies under a child of
`t` all of whose earlier siblings resolve (`child`), or lies in the document
that the UNRESOLVED tile `t` refers to (`document`). -/
inductive FailsAt (x : Externals) (archive : Archive F A E) (e : E) : Tile F A → Prop where
  | here {t : Tile F A} {content : TileContent F A} :
      t.children = [] → t.content = some content → x.absolute content.uri = false →
      iends_with content.uri ".json" = true → archive.read content.uri = .error e →
      FailsAt x archive e t
  | child {t c : Tile F A} {pre post : List (Tile F A)} :
      t.children = pre ++ c :: post →
      (∀ s ∈ pre, ∃ n s' r, includeTile x archive n s = .ok (s', r)) →
      FailsAt x archive e c → FailsAt x archive e t
  | document {t : Tile F A} {content : TileContent F A} {d : Tileset F A} :
      t.children = [] → t.content = some content → x.absolute content.uri = false →
      iends_with content.uri ".json" = true → archive.read content.uri = .ok d →
      FailsAt x archive e d.root → FailsAt x archive e t

end Failure

/-! ## `update` on optional bounding volumes -/

section Update

variable {F A : Type}

/-- The alternative a `boost::variant<Box, Region, Sphere>` holds. -/
inductive Kind where
  | box
  | region
  | sphere
  deriving DecidableEq, Repr

def BoundingVolume.kind : BoundingVolume F A → Kind
  | .box _ => .box
  | .region _ => .region
  | .sphere _ => .sphere

/-- The failure of a merge of two volumes of different kinds. -/
inductive UpdateError where
  | typeMismatch
  deriving DecidableEq, Repr

/-- The member functions `Box::update`, `Region::update` and `Sphere::update`:
declared in `3dtiles.hpp`, their bodies are not part of the sources. -/
structure Updates (F A : Type) where
  box : Box F A → Box F A → Box F A
  region : Region F A → Region F A → Region F A
  sphere : Sphere F A → Sphere F A → Sphere F A

/-- Modelled from the spec: the body of `update(updated, updater)`, which
`3dtiles.hpp` only declares ("If updated is valid then it has to be of the
same type as the updater"). `merge(None, b) = b`, `merge(a, None) = a`, two
volumes of one kind merge by that kind's rule, two volumes of different kinds
fail with a type mismatch. The result is the new value of `updated`. -/
def update (u : Updates F A) (updated updater : Option (BoundingVolume F A)) :
    Except UpdateError (Option (BoundingVolume F A)) :=
  match updated, updater with
  | none, b => .ok b
  | some a, none => .ok (some a)
  | some (.box a), some (.box b) => .ok (some (.box (u.box a b)))
  | some (.region a), some (.region b) => .ok (some (.region (u.region a b)))
  | some (.sphere a), some (.sphere b) => .ok (some (.sphere (u.sphere a b)))
  | some _, some _ => .error .typeMismatch

end Update

/-! ## Sample data

Tiles over `Int` coordinates, with no extension payloads, in an archive whose
read errors are strings. -/

namespace Sample

def base : CommonBase Unit := ⟨[], ()⟩

def origin : Point3 Int := ⟨0, 0, 0⟩

def sphere (radius : Int) : BoundingVolume Int Unit :=
  .sphere { toCommonBase := base, center := origin, radius := radius }

def box (half : Int) : BoundingVolume Int Unit :=
  .box { toCommonBase := base, center := origin,
         x := ⟨half, 0, 0⟩, y := ⟨0, half, 0⟩, z := ⟨0, 0, half⟩ }

def region (half : Int) : BoundingVolume Int Unit :=
  .region { toCommonBase := base, extents := ⟨⟨-half, -half, 0⟩, ⟨half, half, half⟩⟩ }

def identity4 : Matrix4 Int := fun i j => if i = j then 1 else 0

/-- A tile with the given volume, transform, content URI and children. -/
def tile (bv : BoundingVolume Int Unit) (transform : Option (Matrix4 Int))
    (uri : Option String) (children : List (Tile Int Unit)) : Tile Int Unit :=
  { toCommonBase := base
    boundingVolume := bv
    viewerRequestVolume := none
    geometricError := 0
    refine := none
    transform := transform
    content := uri.map fun u => { toCommonBase := base, boundingVolume := none, uri := u }
    children := children }

/-- A document with the given asset version and root tile. -/
def document (version : String) (root : Tile Int Unit) : Tileset Int Unit :=
  { toCommonBase := base
    asset := { toCommonBase := base, version := version, tilesetVersion := none }
    properties := []
    geometricError := 0
    root := root
    extensionsUsed := []
    extensionsRequired := [] }

/-- A URI with an `http` or `https` scheme is absolute. -/
def absolute (uri : String) : Bool :=
  "http://".toList.isPrefixOf uri.toList || "https://".toList.isPrefixOf uri.toList

def externals (defaultIncludeExternal : Bool) : Externals :=
  { absolute := absolute, defaultIncludeExternal := defaultIncludeExternal }

def leaf1 : Tile Int Unit := tile (sphere 1) none none []

def leaf2 : Tile Int Unit := tile (box 1) none none []

/-- Root of `child.json`: two childless, content-free children. -/
def childRoot : Tile Int Unit := tile (sphere 2) none none [leaf1, leaf2]

/-- A childless tile that refers to `child.json`, with a volume and a
transform of its own. -/
def reference : Tile Int Unit := tile (sphere 5) (some identity4) (some "child.json") []

/-- Root of `tileset.json`: one child, the reference to `child.json`. -/
def outerRoot : Tile Int Unit := tile (sphere 10) none none [reference]

/-- A childless tile that refers to a document the archive does not hold. -/
def dangling : Tile Int Unit := tile (sphere 3) none (some "missing.json") []

/-- Root of `broken.json`: a readable reference, an unreadable one, a readable one. -/
def brokenRoot : Tile Int Unit := tile (sphere 10) none none [reference, dangling, reference]

/-- Root of `loop.json`: a childless tile that refers to `loop.json` itself. -/
def loopRoot : Tile Int Unit := tile (sphere 1) none (some "loop.json") []

/-- Root of `a.json`, which refers to `b.json`. -/
def aRoot : Tile Int Unit := tile (sphere 8) none (some "b.json") []

/-- Root of `b.json`, which refers to `child.json`. -/
def bRoot : Tile Int Unit := tile (sphere 7) none (some "child.json") []

/-- A childless tile whose content is hosted elsewhere. -/
def remote : Tile Int Unit :=
  tile (sphere 4) (some identity4) (some "http://example.com/tiles/tileset.json") []

/-- An interior tile that also carries a relative `.json` content URI. -/
def interior : Tile Int Unit := tile (region 9) none (some "loop.json") [reference, leaf1, remote]

def archive : Archive Int Unit String where
  read path :=
    if path = "tileset.json" then .ok (document "1.0" outerRoot)
    else if path = "child.json" then .ok (document "0.0" childRoot)
    else if path = "broken.json" then .ok (document "1.0" brokenRoot)
    else if path = "loop.json" then .ok (document "1.0" loopRoot)
    else if path = "a.json" then .ok (document "1.0" aRoot)
    else if path = "b.json" then .ok (document "1.0" bRoot)
    else .error "not found"

/-- Paths of the chain `a.json`, `b.json`, `child.json`. -/
def chainPath : Nat → String
  | 0 => "a.json"
  | 1 => "b.json"
  | _ => "child.json"

/-- Documents of the chain `a.json`, `b.json`, `child.json`. -/
def chainDoc : Nat → Tileset Int Unit
  | 0 => document "1.0" aRoot
  | 1 => document "1.0" bRoot
  | _ => document "0.0" childRoot

def updates : Updates Int Unit :=
  { box := fun a _ => a, region := fun a _ => a, sphere := fun a _ => a }

end Sample

/-! # Auxiliary facts -/

section Lemmas

variable {F A E : Type}

theorem includeTile_zero (x : Externals) (archive : Archive F A E) (root : Tile F A) :
    includeTile x archive 0 root = .outOfFuel := rfl

theorem includeTile_succ (x : Externals) (archive : Archive F A E) (fuel : Nat)
    (root : Tile F A) :
    includeTile x archive (fuel + 1) root
      = includeBody x archive (includeTile x archive fuel) root := rfl

theorem Outcome.le_refl {α : Type} (a : Outcome E α) : Outcome.le a a := Or.inr rfl

theorem Outcome.le_trans {α : Type} {a b c : Outcome E α}
    (hab : Outcome.le a b) (hbc : Outcome.le b c) : Outcome.le a c := by
  rcases hab with h | h
  · exact Or.inl h
  · subst h; exact hbc

theorem Outcome.le_ok {α : Type} {a b : Outcome E α} {v : α}
    (h : Outcome.le a b) (ha : a = .ok v) : b = .ok v := by
  rcases h with h | h
  · rw [h] at ha; cases ha
  · rw [← h]; exact ha

theorem Outcome.le_error {α : Type} {a b : Outcome E α} {e : E}
    (h : Outcome.le a b) (ha : a = .error e) : b = .error e := by
  rcases h with h | h
  · rw [h] at ha; cases ha
  · rw [← h]; exact ha

/-! ### More fuel never changes an answer -/

theorem includeChildren_mono {inc1 inc2 : Tile F A → Outcome E (Tile F A × List String)}
    (h : ∀ t, Outcome.le (inc1 t) (inc2 t)) (cs : List (Tile F A)) :
    Outcome.le (includeChildren inc1 cs) (includeChildren inc2 cs) := by
  induction cs with
  | nil => exact Outcome.le_refl _
  | cons c cs ih =>
    simp only [includeChildren]
    rcases h c with hc | hc
    · rw [hc]; exact Or.inl rfl
    · rw [← hc]
      cases inc1 c with
      | ok v =>
        rcases ih with hr | hr
        · rw [hr]; exact Or.inl rfl
        · rw [← hr]; exact Outcome.le_refl _
      | error e => exact Outcome.le_refl _
      | outOfFuel => exact Outcome.le_refl _

theorem tilesetWith_mono {inc1 inc2 : Tile F A → Outcome E (Tile F A × List String)}
    (h : ∀ t, Outcome.le (inc1 t) (inc2 t)) (archive : Archive F A E) (path : String)
    (flag : Bool) :
    Outcome.le (tilesetWith inc1 archive path flag) (tilesetWith inc2 archive path flag) := by
  unfold tilesetWith
  cases flag with
  | false => exact Outcome.le_refl _
  | true =>
    cases archive.read path with
    | error e => exact Outcome.le_refl _
    | ok ts =>
      simp only [Bool.not_true, Bool.false_eq_true, if_false]
      rcases h ts.root with hr | hr
      · rw [hr]; exact Or.inl rfl
      · rw [← hr]; exact Outcome.le_refl _

theorem includeBody_mono (x : Externals) (archive : Archive F A E)
    {inc1 inc2 : Tile F A → Outcome E (Tile F A × List String)}
    (h : ∀ t, Outcome.le (inc1 t) (inc2 t)) (root : Tile F A) :
    Outcome.le (includeBody x archive inc1 root) (includeBody x archive inc2 root) := by
  unfold includeBody
  split
  · rcases includeChildren_mono h root.children with hr | hr
    · rw [hr]; exact Or.inl rfl
    · rw [← hr]; exact Outcome.le_refl _
  · cases root.content with
    | none => exact Outcome.le_refl _
    | some content =>
      simp only
      split
      · exact Outcome.le_refl _
      · split
        · rcases tilesetWith_mono h archive content.uri x.defaultIncludeExternal with hr | hr
          · rw [hr]; exact Or.inl rfl
          · rw [← hr]
            cases tilesetWith inc1 archive content.uri x.defaultIncludeExternal with
            | ok v =>
              rcases h v.1.root with hq | hq
              · simp only [hq]; exact Or.inl rfl
              · simp only [← hq]; exact Outcome.le_refl _
            | error e => exact Outcome.le_refl _
            | outOfFuel => exact Outcome.le_refl _
        · exact Outcome.le_refl _

theorem includeTile_mono_succ (x : Externals) (archive : Archive F A E) (fuel : Nat) :
    ∀ root : Tile F A,
      Outcome.le (includeTile x archive fuel root) (includeTile x archive (fuel + 1) root) := by
  induction fuel with
  | zero => intro root; exact Or.inl rfl
  | succ n ih =>
    intro root
    rw [includeTile_succ x archive n, includeTile_succ x archive (n + 1)]
    exact includeBody_mono x archive ih root

theorem includeTile_mono (x : Externals) (archive : Archive F A E) {n m : Nat} (h : n ≤ m)
    (root : Tile F A) :
    Outcome.le (includeTile x archive n root) (includeTile x archive m root) := by
  induction h with
  | refl => exact Outcome.le_refl _
  | step _ ih => exact Outcome.le_trans ih (includeTile_mono_succ x archive _ root)

theorem includeTile_ok_of_le (x : Externals) (archive : Archive F A E) {n m : Nat}
    (h : n ≤ m) {root : Tile F A} {v : Tile F A × List String}
    (hv : includeTile x archive n root = .ok v) : includeTile x archive m root = .ok v :=
  Outcome.le_ok (includeTile_mono x archive h root) hv

theorem includeTile_error_of_le (x : Externals) (archive : Archive F A E) {n m : Nat}
    (h : n ≤ m) {root : Tile F A} {e : E}
    (hv : includeTile x archive n root = .error e) : includeTile x archive m root = .error e :=
  Outcome.le_error (includeTile_mono x archive h root) hv

/-! ### The loop over the children -/

theorem includeChildren_ok_iff (inc : Tile F A → Outcome E (Tile F A × List String))
    (cs : List (Tile F A)) (cs' : List (Tile F A)) (r : List String) :
    includeChildren inc cs = .ok (cs', r) ↔
      ∃ ps : List (Tile F A × List String),
        List.Forall₂ (fun c p => inc c = .ok p) cs ps ∧
          cs' = ps.map Prod.fst ∧ r = (ps.map Prod.snd).flatten := by
  induction cs generalizing cs' r with
  | nil =>
    simp only [includeChildren, Outcome.ok.injEq, Prod.mk.injEq, List.forall₂_nil_left_iff]
    constructor
    · rintro ⟨h1, h2⟩
      exact ⟨[], rfl, by simp [← h1], by simp [← h2]⟩
    · rintro ⟨ps, rfl, h1, h2⟩
      simp [h1, h2]
  | cons c cs ih =>
    simp only [includeChildren]
    constructor
    · intro h
      cases hc : inc c with
      | ok v =>
        rw [hc] at h
        obtain ⟨c', r1⟩ := v
        simp only at h
        cases hr : includeChildren inc cs with
        | ok w =>
          rw [hr] at h
          obtain ⟨rest', r2⟩ := w
          simp only [Outcome.ok.injEq, Prod.mk.injEq] at h
          obtain ⟨ps, hps, h1, h2⟩ := (ih rest' r2).1 hr
          refine ⟨(c', r1) :: ps, List.Forall₂.cons hc hps, ?_, ?_⟩
          · simp [← h.1, h1]
          · simp [← h.2, h2]
        | error e => rw [hr] at h; cases h
        | outOfFuel => rw [hr] at h; cases h
      | error e => rw [hc] at h; cases h
      | outOfFuel => rw [hc] at h; cases h
    · rintro ⟨ps, hps, h1, h2⟩
      cases hps with
      | cons hc hrest =>
        rename_i p ps'
        rw [hc]
        have hr := (ih (ps'.map Prod.fst) ((ps'.map Prod.snd).flatten)).2 ⟨ps', hrest, rfl, rfl⟩
        obtain ⟨c', r1⟩ := p
        simp only [hr, h1, h2, List.map_cons, List.flatten_cons]

theorem includeChildren_fixed (inc : Tile F A → Outcome E (Tile F A × List String))
    (cs : List (Tile F A)) (h : ∀ c ∈ cs, inc c = .ok (c, [])) :
    includeChildren inc cs = .ok (cs, []) := by
  induction cs with
  | nil => rfl
  | cons c cs ih =>
    simp only [includeChildren, h c (List.mem_cons_self c cs),
      ih (fun d hd => h d (List.mem_cons_of_mem c hd)), List.append_nil]

theorem includeChildren_length {inc : Tile F A → Outcome E (Tile F A × List String)}
    {cs cs' : List (Tile F A)} {r : List String}
    (h : includeChildren inc cs = .ok (cs', r)) : cs'.length = cs.length := by
  obtain ⟨ps, hps, h1, _⟩ := (includeChildren_ok_iff inc cs cs' r).1 h
  rw [h1, List.length_map, hps.length_eq]

theorem forall₂_exists_left {α β : Type} {R : α → β → Prop} {l1 : List α} {l2 : List β}
    (h : List.Forall₂ R l1 l2) {b : β} (hb : b ∈ l2) : ∃ a ∈ l1, R a b := by
  induction h with
  | nil => cases hb
  | cons hab _ ih =>
    rcases List.mem_cons.1 hb with rfl | hb'
    · exact ⟨_, List.mem_cons_self _ _, hab⟩
    · obtain ⟨a, ha1, ha2⟩ := ih hb'
      exact ⟨a, List.mem_cons_of_mem _ ha1, ha2⟩

theorem includeChildren_mem {inc : Tile F A → Outcome E (Tile F A × List String)}
    {cs cs' : List (Tile F A)} {r : List String}
    (h : includeChildren inc cs = .ok (cs', r)) {c' : Tile F A} (hc : c' ∈ cs') :
    ∃ c ∈ cs, ∃ rc, inc c = .ok (c', rc) := by
  obtain ⟨ps, hps, h1, _⟩ := (includeChildren_ok_iff inc cs cs' r).1 h
  subst h1
  obtain ⟨p, hp, rfl⟩ := List.mem_map.1 hc
  obtain ⟨c, hc1, hc2⟩ := forall₂_exists_left hps hp
  exact ⟨c, hc1, p.2, hc2⟩

/-! ### The cases of `include` -/

theorem isEmpty_eq_false_of_ne_nil {α : Type} {l : List α} (h : l ≠ []) :
    l.isEmpty = false := by
  cases l with
  | nil => exact absurd rfl h
  | cons a l => rfl

theorem includeBody_children (x : Externals) (archive : Archive F A E)
    (inc : Tile F A → Outcome E (Tile F A × List String)) {root : Tile F A}
    (h : root.children ≠ []) :
    includeBody x archive inc root =
      match includeChildren inc root.children with
      | .ok (children, r) => .ok ({ root with children := children }, r)
      | .error e => .error e
      | .outOfFuel => .outOfFuel := by
  simp only [includeBody, isEmpty_eq_false_of_ne_nil h, Bool.not_false, if_true]

theorem includeBody_none (x : Externals) (archive : Archive F A E)
    (inc : Tile F A → Outcome E (Tile F A × List String)) {root : Tile F A}
    (h1 : root.children = []) (h2 : root.content = none) :
    includeBody x archive inc root = .ok (root, []) := by
  simp [includeBody, h1, h2]

theorem includeBody_absolute (x : Externals) (archive : Archive F A E)
    (inc : Tile F A → Outcome E (Tile F A × List String)) {root : Tile F A}
    {content : TileContent F A}
    (h1 : root.children = []) (h2 : root.content = some content)
    (h3 : x.absolute content.uri = true) :
    includeBody x archive inc root = .ok (root, []) := by
  simp [includeBody, h1, h2, h3]

theorem includeBody_other (x : Externals) (archive : Archive F A E)
    (inc : Tile F A → Outcome E (Tile F A × List String)) {root : Tile F A}
    {content : TileContent F A}
    (h1 : root.children = []) (h2 : root.content = some content)
    (h3 : x.absolute content.uri = false) (h4 : iends_with content.uri ".json" = false) :
    includeBody x archive inc root = .ok (root, []) := by
  simp [includeBody, h1, h2, h3, h4]

theorem includeBody_json (x : Externals) (archive : Archive F A E)
    (inc : Tile F A → Outcome E (Tile F A × List String)) {root : Tile F A}
    {content : TileContent F A}
    (h1 : root.children = []) (h2 : root.content = some content)
    (h3 : x.absolute content.uri = false) (h4 : iends_with content.uri ".json" = true) :
    includeBody x archive inc root =
      match tilesetWith inc archive content.uri x.defaultIncludeExternal with
      | .ok (ts, r1) =>
        match inc ts.root with
        | .ok (root', r2) => .ok (root', r1 ++ r2)
        | .error e => .error e
        | .outOfFuel => .outOfFuel
      | .error e => .error e
      | .outOfFuel => .outOfFuel := by
  simp [includeBody, h1, h2, h3, h4]

/-! ### Resolving a resolved tile changes nothing -/

theorem includeTile_idem (x : Externals) (archive : Archive F A E) (n : Nat) :
    ∀ (t t' : Tile F A) (r : List String),
      includeTile x archive n t = .ok (t', r) → includeTile x archive n t' = .ok (t', []) := by
  induction n with
  | zero => intro t t' r h; rw [includeTile_zero] at h; cases h
  | succ n ih =>
    intro t t' r h
    rw [includeTile_succ] at h ⊢
    by_cases hch : t.children = []
    · cases hco : t.content with
      | none =>
        rw [includeBody_none x archive _ hch hco] at h
        cases h
        exact includeBody_none x archive _ hch hco
      | some c =>
        cases habs : x.absolute c.uri with
        | true =>
          rw [includeBody_absolute x archive _ hch hco habs] at h
          cases h
          exact includeBody_absolute x archive _ hch hco habs
        | false =>
          cases hj : iends_with c.uri ".json" with
          | false =>
            rw [includeBody_other x archive _ hch hco habs hj] at h
            cases h
            exact includeBody_other x archive _ hch hco habs hj
          | true =>
            rw [includeBody_json x archive _ hch hco habs hj] at h
            cases ht : tilesetWith (includeTile x archive n) archive c.uri
                x.defaultIncludeExternal with
            | ok v =>
              rw [ht] at h
              obtain ⟨ts, r1⟩ := v
              simp only at h
              cases hi : includeTile x archive n ts.root with
              | ok w =>
                rw [hi] at h
                obtain ⟨w1, r2⟩ := w
                simp only [Outcome.ok.injEq, Prod.mk.injEq] at h
                obtain ⟨rfl, _⟩ := h
                rw [← includeTile_succ]
                exact includeTile_ok_of_le x archive (Nat.le_succ n) (ih _ _ _ hi)
              | error e => rw [hi] at h; cases h
              | outOfFuel => rw [hi] at h; cases h
            | error e => rw [ht] at h; cases h
            | outOfFuel => rw [ht] at h; cases h
    · rw [includeBody_children x archive _ hch] at h
      cases hcs : includeChildren (includeTile x archive n) t.children with
      | ok v =>
        rw [hcs] at h
        obtain ⟨cs', r'⟩ := v
        simp only [Outcome.ok.injEq, Prod.mk.injEq] at h
        obtain ⟨rfl, _⟩ := h
        have hlen := includeChildren_length hcs
        have hne : cs' ≠ [] := by
          intro h0
          rw [h0] at hlen
          exact hch (List.length_eq_zero.1 hlen.symm)
        have hfix : includeChildren (includeTile x archive n) cs' = .ok (cs', []) := by
          apply includeChildren_fixed
          intro c' hc'
          obtain ⟨c, _, rc, hc⟩ := includeChildren_mem hcs hc'
          exact ih _ _ _ hc
        rw [includeBody_children x archive _ (by exact hne)]
        simp only [hfix]
      | error e => rw [hcs] at h; cases h
      | outOfFuel => rw [hcs] at h; cases h

/-! ### An UNRESOLVED tile -/

theorem includeTile_unresolved (x : Externals) (archive : Archive F A E) (n : Nat)
    {root : Tile F A} {content : TileContent F A}
    (h1 : root.children = []) (h2 : root.content = some content)
    (h3 : x.absolute content.uri = false) (h4 : iends_with content.uri ".json" = true) :
    includeTile x archive (n + 1) root =
      match archive.read content.uri with
      | .error e => .error e
      | .ok d =>
        match includeTile x archive n d.root with
        | .ok (t', r) => .ok (t', content.uri :: r)
        | .error e => .error e
        | .outOfFuel => .outOfFuel := by
  rw [includeTile_succ, includeBody_json x archive _ h1 h2 h3 h4]
  unfold tilesetWith
  cases archive.read content.uri with
  | error e => cases x.defaultIncludeExternal <;> rfl
  | ok d =>
    cases hd : x.defaultIncludeExternal with
    | false =>
      simp only [Bool.not_false, if_true]
      cases includeTile x archive n d.root with
      | ok v => rfl
      | error e => rfl
      | outOfFuel => rfl
    | true =>
      simp only [Bool.not_true, Bool.false_eq_true, if_false]
      cases hi : includeTile x archive n d.root with
      | ok v =>
        obtain ⟨t', r⟩ := v
        simp only [includeTile_idem x archive n _ _ _ hi, List.append_nil]
      | error e => rfl
      | outOfFuel => rfl

/-! ### Trees without UNRESOLVED nodes -/

theorem Tile.allNodes_eq (p : Tile F A → Bool) (t : Tile F A) :
    t.allNodes p = (p t && allNodesList p t.children) := by
  cases t; simp only [Tile.allNodes]

theorem allNodesList_iff (p : Tile F A → Bool) (cs : List (Tile F A)) :
    allNodesList p cs = true ↔ ∀ c ∈ cs, c.allNodes p = true := by
  induction cs with
  | nil => simp [allNodesList]
  | cons c cs ih => simp [allNodesList, ih]

theorem Tile.resolved_iff (x : Externals) (t : Tile F A) :
    t.resolved x = true ↔
      t.unresolved x = false ∧ ∀ c ∈ t.children, c.resolved x = true := by
  unfold Tile.resolved
  rw [Tile.allNodes_eq, Bool.and_eq_true, allNodesList_iff]
  simp

theorem Tile.allNodes_node {p : Tile F A → Bool} {t d : Tile F A}
    (h : t.allNodes p = true) (hd : Tile.Node t d) : p d = true := by
  induction hd with
  | self t =>
    rw [Tile.allNodes_eq, Bool.and_eq_true] at h
    exact h.1
  | child hc _ ih =>
    rw [Tile.allNodes_eq, Bool.and_eq_true, allNodesList_iff] at h
    exact ih (h.2 _ hc)

theorem Tile.unresolved_of_children_ne_nil (x : Externals) {t : Tile F A}
    (h : t.children ≠ []) : t.unresolved x = false := by
  simp [Tile.unresolved, isEmpty_eq_false_of_ne_nil h]

theorem includeTile_resolved (x : Externals) (archive : Archive F A E) (n : Nat) :
    ∀ (t t' : Tile F A) (r : List String),
      includeTile x archive n t = .ok (t', r) → t'.resolved x = true := by
  induction n with
  | zero => intro t t' r h; rw [includeTile_zero] at h; cases h
  | succ n ih =>
    intro t t' r h
    rw [includeTile_succ] at h
    by_cases hch : t.children = []
    · cases hco : t.content with
      | none =>
        rw [includeBody_none x archive _ hch hco] at h
        cases h
        rw [Tile.resolved_iff]
        simp [Tile.unresolved, hch, hco]
      | some c =>
        cases habs : x.absolute c.uri with
        | true =>
          rw [includeBody_absolute x archive _ hch hco habs] at h
          cases h
          rw [Tile.resolved_iff]
          simp [Tile.unresolved, hch, hco, habs]
        | false =>
          cases hj : iends_with c.uri ".json" with
          | false =>
            rw [includeBody_other x archive _ hch hco habs hj] at h
            cases h
            rw [Tile.resolved_iff]
            simp [Tile.unresolved, hch, hco, habs, hj]
          | true =>
            rw [includeBody_json x archive _ hch hco habs hj] at h
            cases ht : tilesetWith (includeTile x archive n) archive c.uri
                x.defaultIncludeExternal with
            | ok v =>
              rw [ht] at h
              obtain ⟨ts, r1⟩ := v
              simp only at h
              cases hi : includeTile x archive n ts.root with
              | ok w =>
                rw [hi] at h
                obtain ⟨w1, r2⟩ := w
                simp only [Outcome.ok.injEq, Prod.mk.injEq] at h
                obtain ⟨rfl, _⟩ := h
                exact ih _ _ _ hi
              | error e => rw [hi] at h; cases h
              | outOfFuel => rw [hi] at h; cases h
            | error e => rw [ht] at h; cases h
            | outOfFuel => rw [ht] at h; cases h
    · rw [includeBody_children x archive _ hch] at h
      cases hcs : includeChildren (includeTile x archive n) t.children with
      | ok v =>
        rw [hcs] at h
        obtain ⟨cs', r'⟩ := v
        simp only [Outcome.ok.injEq, Prod.mk.injEq] at h
        obtain ⟨rfl, _⟩ := h
        have hlen := includeChildren_length hcs
        have hne : cs' ≠ [] := by
          intro h0
          rw [h0] at hlen
          exact hch (List.length_eq_zero.1 hlen.symm)
        rw [Tile.resolved_iff]
        refine ⟨Tile.unresolved_of_children_ne_nil x (by exact hne), ?_⟩
        intro c' hc'
        obtain ⟨c, _, rc, hc⟩ := includeChildren_mem hcs hc'
        exact ih _ _ _ hc
      | error e => rw [hcs] at h; cases h
      | outOfFuel => rw [hcs] at h; cases h

theorem Tile.with_children_self (t : Tile F A) :
    { t with children := t.children } = t := by
  cases t; rfl

theorem Tile.depth_eq (t : Tile F A) : t.depth = depthList t.children + 1 := by
  cases t; simp only [Tile.depth]

theorem depth_le_depthList {c : Tile F A} {cs : List (Tile F A)} (h : c ∈ cs) :
    c.depth ≤ depthList cs := by
  induction cs with
  | nil => cases h
  | cons d cs ih =>
    simp only [depthList]
    rcases List.mem_cons.1 h with rfl | h'
    · exact Nat.le_max_left _ _
    · exact Nat.le_trans (ih h') (Nat.le_max_right _ _)

theorem includeTile_of_resolved (x : Externals) (archive : Archive F A E) (n : Nat) :
    ∀ t : Tile F A, t.resolved x = true → t.depth ≤ n →
      includeTile x archive n t = .ok (t, []) := by
  induction n with
  | zero =>
    intro t _ hd
    rw [Tile.depth_eq] at hd
    omega
  | succ n ih =>
    intro t hr hd
    rw [Tile.resolved_iff] at hr
    rw [includeTile_succ]
    by_cases hch : t.children = []
    · cases hco : t.content with
      | none => exact includeBody_none x archive _ hch hco
      | some c =>
        cases habs : x.absolute c.uri with
        | true => exact includeBody_absolute x archive _ hch hco habs
        | false =>
          cases hj : iends_with c.uri ".json" with
          | false => exact includeBody_other x archive _ hch hco habs hj
          | true =>
            have := hr.1
            simp [Tile.unresolved, hch, hco, habs, hj] at this
    · rw [includeBody_children x archive _ hch]
      have hfix : includeChildren (includeTile x archive n) t.children
          = .ok (t.children, []) := by
        apply includeChildren_fixed
        intro c hc
        apply ih c (hr.2 c hc)
        have := depth_le_depthList hc
        rw [Tile.depth_eq] at hd
        omega
      simp only [hfix]
      exact congrArg (fun u => Outcome.ok (u, [])) (Tile.with_children_self t)

theorem Tile.unresolved_iff (x : Externals) (t : Tile F A) :
    t.unresolved x = true ↔
      t.children = [] ∧ ∃ c, t.content = some c ∧ x.absolute c.uri = false ∧
        iends_with c.uri ".json" = true := by
  unfold Tile.unresolved
  cases hco : t.content with
  | none => simp
  | some c => simp [List.isEmpty_iff]

/-! ### `Archive::tileset` and fuel -/

theorem tileset_mono (x : Externals) (archive : Archive F A E) {n m : Nat} (h : n ≤ m)
    (path : String) (flag : Bool) :
    Outcome.le (Archive.tileset x archive n path flag)
      (Archive.tileset x archive m path flag) :=
  tilesetWith_mono (includeTile_mono x archive h) archive path flag

theorem tileset_ne_ok_of_error (x : Externals) (archive : Archive F A E) {n0 : Nat}
    {path : String} {flag : Bool} {e : E}
    (h : Archive.tileset x archive n0 path flag = .error e)
    (n : Nat) (ts : Tileset F A) (r : List String) :
    Archive.tileset x archive n path flag ≠ .ok (ts, r) := by
  intro hok
  rcases Nat.le_total n n0 with hle | hle
  · have := Outcome.le_ok (tileset_mono x archive hle path flag) hok
    rw [h] at this; cases this
  · have := Outcome.le_error (tileset_mono x archive hle path flag) h
    rw [hok] at this; cases this

theorem tileset_true_of_read (x : Externals) (archive : Archive F A E) (n : Nat)
    {path : String} {ts : Tileset F A} (h : archive.read path = .ok ts) :
    Archive.tileset x archive n path true =
      match includeTile x archive n ts.root with
      | .ok (root, r) => .ok ({ ts with root := root }, path :: r)
      | .error e => .error e
      | .outOfFuel => .outOfFuel := by
  simp only [Archive.tileset, tilesetWith, h, Bool.not_true, Bool.false_eq_true, if_false]

/-! ### Failures end the loop over the children -/

theorem includeChildren_error {inc : Tile F A → Outcome E (Tile F A × List String)}
    {pre post : List (Tile F A)} {c : Tile F A} {e : E}
    (hpre : ∀ s ∈ pre, ∃ s' r, inc s = .ok (s', r)) (hc : inc c = .error e) :
    includeChildren inc (pre ++ c :: post) = .error e := by
  induction pre with
  | nil => simp only [List.nil_append, includeChildren, hc]
  | cons s pre ih =>
    obtain ⟨s', r, hs⟩ := hpre s (List.mem_cons_self s pre)
    have hrest := ih (fun q hq => hpre q (List.mem_cons_of_mem s hq))
    rw [List.cons_append]
    simp only [includeChildren, hs]
    rw [hrest]

theorem exists_common_fuel (x : Externals) (archive : Archive F A E) (pre : List (Tile F A))
    (h : ∀ s ∈ pre, ∃ n s' r, includeTile x archive n s = .ok (s', r)) :
    ∃ N, ∀ s ∈ pre, ∃ s' r, includeTile x archive N s = .ok (s', r) := by
  induction pre with
  | nil => exact ⟨0, fun s hs => by cases hs⟩
  | cons q pre ih =>
    obtain ⟨N, hN⟩ := ih (fun s hs => h s (List.mem_cons_of_mem q hs))
    obtain ⟨n, q', r, hq⟩ := h q (List.mem_cons_self q pre)
    refine ⟨max N n, ?_⟩
    intro s hs
    rcases List.mem_cons.1 hs with rfl | hs'
    · exact ⟨q', r, includeTile_ok_of_le x archive (Nat.le_max_right N n) hq⟩
    · obtain ⟨s', r', hs2⟩ := hN s hs'
      exact ⟨s', r', includeTile_ok_of_le x archive (Nat.le_max_left N n) hs2⟩

theorem FailsAt.includeTile_error {x : Externals} {archive : Archive F A E} {e : E}
    {t : Tile F A} (h : FailsAt x archive e t) :
    ∃ n0, includeTile x archive n0 t = .error e := by
  induction h with
  | here h1 h2 h3 h4 hread =>
    refine ⟨1, ?_⟩
    rw [includeTile_unresolved x archive 0 h1 h2 h3 h4, hread]
  | @child t c pre post hch hpre _ ih =>
    obtain ⟨nc, hc⟩ := ih
    obtain ⟨N, hN⟩ := exists_common_fuel x archive pre hpre
    refine ⟨max N nc + 1, ?_⟩
    have hne : t.children ≠ [] := by rw [hch]; simp
    rw [includeTile_succ, includeBody_children x archive _ hne, hch]
    have hpre' : ∀ s ∈ pre, ∃ s' r, includeTile x archive (max N nc) s = .ok (s', r) := by
      intro s hs
      obtain ⟨s', r, h2⟩ := hN s hs
      exact ⟨s', r, includeTile_ok_of_le x archive (Nat.le_max_left N nc) h2⟩
    rw [includeChildren_error hpre'
      (includeTile_error_of_le x archive (Nat.le_max_right N nc) hc)]
  | document h1 h2 h3 h4 hread _ ih =>
    obtain ⟨nd, hd⟩ := ih
    refine ⟨nd + 1, ?_⟩
    rw [includeTile_unresolved x archive nd h1 h2 h3 h4, hread]
    simp only [hd]

/-! ### Chains of documents -/

theorem chain_include (x : Externals) (archive : Archive F A E) (N : Nat)
    (p : Nat → String) (d : Nat → Tileset F A)
    (hread : ∀ i, i ≤ N → archive.read (p i) = .ok (d i))
    (hlink : ∀ i, i < N →
      (d i).root.children = [] ∧
        ∃ c, (d i).root.content = some c ∧ c.uri = p (i + 1) ∧
          x.absolute c.uri = false ∧ iends_with c.uri ".json" = true)
    (hend : (d N).root.resolved x = true) :
    ∀ j i, i + j = N → ∀ n, (d N).root.depth + j ≤ n →
      includeTile x archive n (d i).root
        = .ok ((d N).root, (List.range' (i + 1) j).map p) := by
  intro j
  induction j with
  | zero =>
    intro i hi n hn
    have : i = N := by omega
    subst this
    exact includeTile_of_resolved x archive n _ hend (by omega)
  | succ j ih =>
    intro i hi n hn
    obtain ⟨m, rfl⟩ : ∃ m, n = m + 1 := ⟨n - 1, by omega⟩
    obtain ⟨hch, c, hco, huri, habs, hj⟩ := hlink i (by omega)
    rw [includeTile_unresolved x archive m hch hco habs hj, huri,
      hread (i + 1) (by omega)]
    simp only [ih (i + 1) (by omega) m (by omega), List.range'_succ, List.map_cons]

theorem chain_paths_ne (x : Externals) (archive : Archive F A E) (N : Nat)
    (p : Nat → String) (d : Nat → Tileset F A)
    (hread : ∀ i, i ≤ N → archive.read (p i) = .ok (d i))
    (hlink : ∀ i, i < N →
      (d i).root.children = [] ∧
        ∃ c, (d i).root.content = some c ∧ c.uri = p (i + 1) ∧
          x.absolute c.uri = false ∧ iends_with c.uri ".json" = true)
    (hend : (d N).root.resolved x = true) :
    ∀ k i j, i < j → j + k = N → p i ≠ p j := by
  intro k
  induction k with
  | zero =>
    intro i j hij hj hp
    have hjN : j = N := by omega
    subst hjN
    have hd : d i = d j := by
      have h1 := hread i (by omega)
      rw [hp, hread j (Nat.le_refl j)] at h1
      exact (Except.ok.inj h1).symm
    have hu : (d i).root.unresolved x = true :=
      (Tile.unresolved_iff x _).2 (by
        obtain ⟨hch, c, hco, _, habs, hjs⟩ := hlink i hij
        exact ⟨hch, c, hco, habs, hjs⟩)
    rw [hd, ((Tile.resolved_iff x _).1 hend).1] at hu
    cases hu
  | succ k ih =>
    intro i j hij hj hp
    have hd : d i = d j := by
      have h1 := hread i (by omega)
      rw [hp, hread j (by omega)] at h1
      exact (Except.ok.inj h1).symm
    obtain ⟨_, c, hco, huri, _, _⟩ := hlink i (by omega)
    obtain ⟨_, c2, hco2, huri2, _, _⟩ := hlink j (by omega)
    rw [hd, hco2] at hco
    cases hco
    exact ih (i + 1) (j + 1) (by omega) (by omega) (by rw [← huri, ← huri2])

theorem chain_paths_nodup (x : Externals) (archive : Archive F A E) (N : Nat)
    (p : Nat → String) (d : Nat → Tileset F A)
    (hread : ∀ i, i ≤ N → archive.read (p i) = .ok (d i))
    (hlink : ∀ i, i < N →
      (d i).root.children = [] ∧
        ∃ c, (d i).root.content = some c ∧ c.uri = p (i + 1) ∧
          x.absolute c.uri = false ∧ iends_with c.uri ".json" = true)
    (hend : (d N).root.resolved x = true) :
    ((List.range (N + 1)).map p).Nodup := by
  apply List.Nodup.map_on _ (List.nodup_range (N + 1))
  intro i hi j hj hp
  rw [List.mem_range] at hi hj
  by_contra hne
  rcases Nat.lt_or_gt_of_ne hne with hlt | hlt
  · exact chain_paths_ne x archive N p d hread hlink hend (N - j) i j hlt (by omega) hp
  · exact chain_paths_ne x archive N p d hread hlink hend (N - i) j i hlt (by omega) hp.symm

/-! ### A tile that is not UNRESOLVED keeps its own fields -/

theorem includeTile_own_fields (x : Externals) (archive : Archive F A E) (n : Nat)
    (t t' : Tile F A) (r : List String)
    (h : includeTile x archive n t = .ok (t', r)) (hu : t.unresolved x = false) :
    t' = { t with children := t'.children } := by
  cases n with
  | zero => rw [includeTile_zero] at h; cases h
  | succ n =>
    rw [includeTile_succ] at h
    by_cases hch : t.children = []
    · cases hco : t.content with
      | none =>
        rw [includeBody_none x archive _ hch hco] at h
        cases h
        rw [← hco]
        exact (Tile.with_children_self t).symm
      | some c =>
        cases habs : x.absolute c.uri with
        | true =>
          rw [includeBody_absolute x archive _ hch hco habs] at h
          cases h
          rw [← hco]
          exact (Tile.with_children_self t).symm
        | false =>
          cases hj : iends_with c.uri ".json" with
          | false =>
            rw [includeBody_other x archive _ hch hco habs hj] at h
            cases h
            rw [← hco]
            exact (Tile.with_children_self t).symm
          | true =>
            rw [(Tile.unresolved_iff x t).2 ⟨hch, c, hco, habs, hj⟩] at hu
            cases hu
    · rw [includeBody_children x archive _ hch] at h
      cases hcs : includeChildren (includeTile x archive n) t.children with
      | ok v =>
        rw [hcs] at h
        obtain ⟨cs', r'⟩ := v
        simp only [Outcome.ok.injEq, Prod.mk.injEq] at h
        obtain ⟨rfl, _⟩ := h
        rfl
      | error e => rw [hcs] at h; cases h
      | outOfFuel => rw [hcs] at h; cases h

end Lemmas

/-! # The claims -/

section Claims

variable {F A E : Type}

/-- C1. Completeness of resolution: on every archive and every tile tree on
which `include` returns, the resulting tree has no UNRESOLVED node, that is
no tile with an empty child list, a content descriptor, a content URI that is
not absolute and that ends in `.json` without regard to case. -/
theorem include_complete (x : Externals) (archive : Archive F A E) (fuel : Nat)
    (t t' : Tile F A) (r : List String)
    (h : includeTile x archive fuel t = .ok (t', r)) :
    ∀ d, Tile.Node t' d →
      ¬ (d.children = [] ∧ ∃ c, d.content = some c ∧ x.absolute c.uri = false ∧
          iends_with c.uri ".json" = true) := by
  intro d hd hu
  have h1 := Tile.allNodes_node (includeTile_resolved x archive fuel t t' r h) hd
  have h2 := (Tile.unresolved_iff x d).2 hu
  simp [h2] at h1

/-- C1 at the sample archive: the root of `tileset.json` resolves, and the
result has no UNRESOLVED node. -/
theorem include_complete_witness :
    includeTile (Sample.externals false) Sample.archive 4 Sample.outerRoot
        = .ok (Sample.tile (Sample.sphere 10) none none [Sample.childRoot], ["child.json"]) ∧
      ∀ d, Tile.Node (Sample.tile (Sample.sphere 10) none none [Sample.childRoot]) d →
        ¬ (d.children = [] ∧ ∃ c, d.content = some c ∧
            (Sample.externals false).absolute c.uri = false ∧
            iends_with c.uri ".json" = true) :=
  ⟨rfl, include_complete (Sample.externals false) Sample.archive 4 Sample.outerRoot _ _ rfl⟩

/-- C2 as stated fails: the tile that replaces the reference to `child.json`
is the root of `child.json`; the volume and the transform of the referring
tile are gone, whatever the default of `includeExternal`. -/
theorem splice_keeps_frame_counterexample :
    Sample.reference.unresolved (Sample.externals false) = true ∧
      includeTile (Sample.externals false) Sample.archive 3 Sample.reference
        = .ok (Sample.childRoot, ["child.json"]) ∧
      includeTile (Sample.externals true) Sample.archive 3 Sample.reference
        = .ok (Sample.childRoot, ["child.json"]) ∧
      Sample.childRoot.boundingVolume ≠ Sample.reference.boundingVolume ∧
      Sample.childRoot.transform ≠ Sample.reference.transform := by
  refine ⟨rfl, rfl, rfl, ?_, ?_⟩
  · intro h
    simp [Sample.childRoot, Sample.reference, Sample.tile, Sample.sphere] at h
  · intro h
    simp [Sample.childRoot, Sample.reference, Sample.tile] at h

/-- C2, amended. For every UNRESOLVED tile `n` whose referenced document `d`
decodes, `include` puts in the slot of `n` what `include` makes of the root
tile of `d`: it returns a tile exactly when the resolution of that root does,
the same tile, after one read of the document, so the result is determined by
`d` and no field of `n` enters it. When the root of `d` is not itself
UNRESOLVED, the slot has that root's own fields (bounding volume, transform,
content and the rest), only its child list being the resolved one; when it is
UNRESOLVED, the slot is in turn what `include` makes of the document it names. -/
theorem include_splice_replaces (x : Externals) (archive : Archive F A E) (fuel : Nat)
    (n : Tile F A) (content : TileContent F A) (d : Tileset F A)
    (h1 : n.children = []) (h2 : n.content = some content)
    (h3 : x.absolute content.uri = false) (h4 : iends_with content.uri ".json" = true)
    (hd : archive.read content.uri = .ok d) (t' : Tile F A) (r : List String) :
    (includeTile x archive (fuel + 1) n = .ok (t', r) ↔
        ∃ r', includeTile x archive fuel d.root = .ok (t', r') ∧ r = content.uri :: r') ∧
      (includeTile x archive (fuel + 1) n = .ok (t', r) → d.root.unresolved x = false →
        t' = { d.root with children := t'.children } ∧
          t'.boundingVolume = d.root.boundingVolume ∧
          t'.transform = d.root.transform) := by
  have hiff : includeTile x archive (fuel + 1) n = .ok (t', r) ↔
      ∃ r', includeTile x archive fuel d.root = .ok (t', r') ∧ r = content.uri :: r' := by
    rw [includeTile_unresolved x archive fuel h1 h2 h3 h4, hd]
    simp only
    cases hi : includeTile x archive fuel d.root with
    | ok v =>
      obtain ⟨v1, v2⟩ := v
      simp only [Outcome.ok.injEq, Prod.mk.injEq]
      constructor
      · rintro ⟨rfl, rfl⟩
        exact ⟨v2, ⟨rfl, rfl⟩, rfl⟩
      · rintro ⟨r', ⟨rfl, rfl⟩, rfl⟩
        exact ⟨rfl, rfl⟩
    | error e => simp
    | outOfFuel => simp
  refine ⟨hiff, ?_⟩
  intro hok hu
  obtain ⟨r', hr', _⟩ := hiff.1 hok
  have hown := includeTile_own_fields x archive fuel d.root t' r' hr' hu
  refine ⟨hown, ?_, ?_⟩
  · rw [hown]
  · rw [hown]

/-- C2, amended, at the sample archive: the reference to `child.json` becomes
the root of `child.json`, with that root's volume and transform. -/
theorem include_splice_replaces_witness :
    Sample.reference.children = [] ∧
      Sample.childRoot.unresolved (Sample.externals true) = false ∧
      ((includeTile (Sample.externals true) Sample.archive 3 Sample.reference
            = .ok (Sample.childRoot, ["child.json"]) ↔
          ∃ r', includeTile (Sample.externals true) Sample.archive 2 Sample.childRoot
              = .ok (Sample.childRoot, r') ∧ ["child.json"] = "child.json" :: r') ∧
        (includeTile (Sample.externals true) Sample.archive 3 Sample.reference
            = .ok (Sample.childRoot, ["child.json"]) →
          Sample.childRoot.unresolved (Sample.externals true) = false →
          Sample.childRoot
              = { (Sample.document "0.0" Sample.childRoot).root with
                  children := Sample.childRoot.children } ∧
            Sample.childRoot.boundingVolume
              = (Sample.document "0.0" Sample.childRoot).root.boundingVolume ∧
            Sample.childRoot.transform
              = (Sample.document "0.0" Sample.childRoot).root.transform)) :=
  ⟨rfl, rfl, include_splice_replaces (Sample.externals true) Sample.archive 2 Sample.reference
    { toCommonBase := Sample.base, boundingVolume := none, uri := "child.json" }
    (Sample.document "0.0" Sample.childRoot) rfl rfl rfl rfl rfl Sample.childRoot
    ["child.json"]⟩

/-- C4. Absolute references are a no-op: for every childless tile whose
content URI is absolute, whether or not it ends in `.json`, `include` returns
the tile itself, reads nothing from the archive and does not fail. -/
theorem include_absolute_noop (x : Externals) (archive : Archive F A E) (fuel : Nat)
    (t : Tile F A) (content : TileContent F A)
    (h1 : t.children = []) (h2 : t.content = some content)
    (h3 : x.absolute content.uri = true) :
    includeTile x archive (fuel + 1) t = .ok (t, []) := by
  rw [includeTile_succ]
  exact includeBody_absolute x archive _ h1 h2 h3

/-- C4 at a tile whose content is `http://example.com/tiles/tileset.json`. -/
theorem include_absolute_noop_witness :
    Sample.remote.children = [] ∧
      Sample.absolute "http://example.com/tiles/tileset.json" = true ∧
      iends_with "http://example.com/tiles/tileset.json" ".json" = true ∧
      includeTile (Sample.externals false) Sample.archive 1 Sample.remote
        = .ok (Sample.remote, []) :=
  ⟨rfl, rfl, rfl, include_absolute_noop (Sample.externals false) Sample.archive 0 Sample.remote
    { toCommonBase := Sample.base, boundingVolume := none,
      uri := "http://example.com/tiles/tileset.json" } rfl rfl rfl⟩

/-- C7. Document order, and interior tiles are TERMINAL: for every tile with
a non-empty child list, `include` returns exactly when the resolutions of the
children, taken in list order, all return; the result is the tile itself with
every own field as it was (its content descriptor too, even a relative one
ending in `.json`), its child list replaced entry by entry by the resolved
children, and the reads are those of the children, in order, so none is issued
for the tile itself. -/
theorem include_interior (x : Externals) (archive : Archive F A E) (fuel : Nat)
    (t : Tile F A) (h : t.children ≠ []) (t' : Tile F A) (r : List String) :
    includeTile x archive (fuel + 1) t = .ok (t', r) ↔
      ∃ ps : List (Tile F A × List String),
        List.Forall₂ (fun c p => includeTile x archive fuel c = .ok p) t.children ps ∧
          t' = { t with children := ps.map Prod.fst } ∧
          t'.content = t.content ∧
          t'.children.length = t.children.length ∧
          r = (ps.map Prod.snd).flatten := by
  rw [includeTile_succ, includeBody_children x archive _ h]
  constructor
  · intro hk
    cases hcs : includeChildren (includeTile x archive fuel) t.children with
    | ok v =>
      rw [hcs] at hk
      obtain ⟨cs', r0⟩ := v
      simp only [Outcome.ok.injEq, Prod.mk.injEq] at hk
      obtain ⟨rfl, rfl⟩ := hk
      obtain ⟨ps, hps, hcs', hr⟩ := (includeChildren_ok_iff _ _ _ _).1 hcs
      refine ⟨ps, hps, by rw [hcs'], rfl, ?_, hr⟩
      exact includeChildren_length hcs
    | error e => rw [hcs] at hk; cases hk
    | outOfFuel => rw [hcs] at hk; cases hk
  · rintro ⟨ps, hps, rfl, _, _, rfl⟩
    have hcs := (includeChildren_ok_iff (includeTile x archive fuel) t.children
      (ps.map Prod.fst) ((ps.map Prod.snd).flatten)).2 ⟨ps, hps, rfl, rfl⟩
    simp only [hcs]

/-- C7 at an interior tile of the sample archive with three children and a
relative `.json` content URI of its own. -/
theorem include_interior_witness :
    Sample.interior.children ≠ [] ∧
      (includeTile (Sample.externals false) Sample.archive 4 Sample.interior
          = .ok (Sample.tile (Sample.region 9) none (some "loop.json")
              [Sample.childRoot, Sample.leaf1, Sample.remote], ["child.json"]) ↔
        ∃ ps : List (Tile Int Unit × List String),
          List.Forall₂
              (fun c p => includeTile (Sample.externals false) Sample.archive 3 c = .ok p)
              Sample.interior.children ps ∧
            Sample.tile (Sample.region 9) none (some "loop.json")
                [Sample.childRoot, Sample.leaf1, Sample.remote]
              = { Sample.interior with children := ps.map Prod.fst } ∧
            (Sample.tile (Sample.region 9) none (some "loop.json")
                [Sample.childRoot, Sample.leaf1, Sample.remote]).content
              = Sample.interior.content ∧
            (Sample.tile (Sample.region 9) none (some "loop.json")
                [Sample.childRoot, Sample.leaf1, Sample.remote]).children.length
              = Sample.interior.children.length ∧
            ["child.json"] = (ps.map Prod.snd).flatten) :=
  ⟨by simp [Sample.interior, Sample.tile],
    include_interior (Sample.externals false) Sample.archive 3 Sample.interior
      (by simp [Sample.interior, Sample.tile]) _ _⟩

/-- C8. Resolution only touches the root subtree: when `Archive::tileset`
returns with and without `includeExternal` on one path, the tileset without
it is the decoded document, the tileset with it differs from that document in
its root alone (asset, properties, geometricError, extensionsUsed and
extensionsRequired are the document's own), and its root is what `include`
makes of the document's root. -/
theorem tileset_root_only (x : Externals) (archive : Archive F A E) (fuel fuel0 : Nat)
    (path : String) (ts1 ts0 : Tileset F A) (r1 r0 : List String)
    (h1 : Archive.tileset x archive fuel path true = .ok (ts1, r1))
    (h0 : Archive.tileset x archive fuel0 path false = .ok (ts0, r0)) :
    archive.read path = .ok ts0 ∧ r0 = [path] ∧
      ts1 = { ts0 with root := ts1.root } ∧
      ts1.asset = ts0.asset ∧ ts1.properties = ts0.properties ∧
      ts1.geometricError = ts0.geometricError ∧
      ts1.extensionsUsed = ts0.extensionsUsed ∧
      ts1.extensionsRequired = ts0.extensionsRequired ∧
      ∃ r, includeTile x archive fuel ts0.root = .ok (ts1.root, r) ∧ r1 = path :: r := by
  unfold Archive.tileset tilesetWith at h1 h0
  cases hread : archive.read path with
  | error e => rw [hread] at h0; simp at h0
  | ok ts =>
    rw [hread] at h0 h1
    simp only [Bool.not_false, if_true, Outcome.ok.injEq, Prod.mk.injEq] at h0
    obtain ⟨rfl, rfl⟩ := h0
    simp only [Bool.not_true, Bool.false_eq_true, if_false] at h1
    cases hi : includeTile x archive fuel ts.root with
    | ok v =>
      rw [hi] at h1
      obtain ⟨root, r⟩ := v
      simp only [Outcome.ok.injEq, Prod.mk.injEq] at h1
      obtain ⟨rfl, rfl⟩ := h1
      exact ⟨rfl, rfl, rfl, rfl, rfl, rfl, rfl, rfl, r, rfl, rfl⟩
    | error e => rw [hi] at h1; cases h1
    | outOfFuel => rw [hi] at h1; cases h1

/-- C8 at `tileset.json` of the sample archive, whose included document
`child.json` has another asset version. -/
theorem tileset_root_only_witness :
    Archive.tileset (Sample.externals false) Sample.archive 4 "tileset.json" true
        = .ok (Sample.document "1.0"
            (Sample.tile (Sample.sphere 10) none none [Sample.childRoot]),
          ["tileset.json", "child.json"]) ∧
      (Sample.document "1.0"
          (Sample.tile (Sample.sphere 10) none none [Sample.childRoot])).asset
        = (Sample.document "1.0" Sample.outerRoot).asset :=
  ⟨rfl, (tileset_root_only (Sample.externals false) Sample.archive 4 0 "tileset.json"
    _ _ _ _ rfl rfl).2.2.2.1⟩

/-- C9. A merge of two present volumes of different kinds fails: `update`
yields the type-mismatch error exactly on the six ordered pairs of different
kinds and no volume then; when it yields a volume, the volume has the kind
of the updated operand. -/
theorem update_kind_mismatch (u : Updates F A) (a b : BoundingVolume F A) :
    (update u (some a) (some b) = .error .typeMismatch ↔ a.kind ≠ b.kind) ∧
      (∀ v, update u (some a) (some b) = .ok v → ∃ a', v = some a' ∧ a'.kind = a.kind) := by
  cases a <;> cases b <;> simp [update, BoundingVolume.kind]

/-- C9 at a box updated by a sphere. -/
theorem update_kind_mismatch_witness :
    update Sample.updates (some (Sample.box 1)) (some (Sample.sphere 1))
      = .error .typeMismatch :=
  (update_kind_mismatch Sample.updates (Sample.box 1) (Sample.sphere 1)).1.2 (by decide)

/-- C10. Cyclic references are not guarded: when documents `d 0 .. d (k - 1)`
form a cycle (the root of each is a childless tile whose relative `.json`
content URI names the next one, the last naming the first), `include` on the
root of any of them returns nothing, whatever the fuel. -/
theorem include_cycle_diverges (x : Externals) (archive : Archive F A E) (k : Nat)
    (p : Nat → String) (d : Nat → Tileset F A)
    (hcycle : ∀ i, i < k →
      archive.read (p i) = .ok (d i) ∧ (d i).root.children = [] ∧
        ∃ c, (d i).root.content = some c ∧ c.uri = p ((i + 1) % k) ∧
          x.absolute c.uri = false ∧ iends_with c.uri ".json" = true) :
    ∀ fuel i, i < k → includeTile x archive fuel (d i).root = .outOfFuel := by
  intro fuel
  induction fuel with
  | zero => intro i _; rfl
  | succ n ih =>
    intro i hi
    obtain ⟨_, hch, c, hco, huri, habs, hj⟩ := hcycle i hi
    have hlt : (i + 1) % k < k := Nat.mod_lt _ (by omega)
    obtain ⟨hread, _⟩ := hcycle ((i + 1) % k) hlt
    rw [includeTile_unresolved x archive n hch hco habs hj, huri, hread]
    simp only [ih _ hlt]

/-- C10 at the sample archive: `loop.json` refers to itself, and `include`
on its root does not return with fuel 1000. -/
theorem include_cycle_diverges_witness :
    Sample.archive.read "loop.json" = .ok (Sample.document "1.0" Sample.loopRoot) ∧
      Sample.loopRoot.unresolved (Sample.externals false) = true ∧
      includeTile (Sample.externals false) Sample.archive 1000 Sample.loopRoot
        = .outOfFuel :=
  ⟨rfl, rfl, include_cycle_diverges (Sample.externals false) Sample.archive 1
    (fun _ => "loop.json") (fun _ => Sample.document "1.0" Sample.loopRoot)
    (fun _ _ => ⟨rfl, rfl, _, rfl, rfl, rfl, rfl⟩) 1000 0 (by decide)⟩

/-- C6. Termination on reference chains: when documents `d 0 .. d N` of the
archive form a chain (for `i < N` the root of `d i` is a childless tile whose
relative `.json` content URI names `d (i + 1)`; the tree of the root of `d N`
has no UNRESOLVED node), resolution of `d 0` returns for every sufficient
fuel. It reads `p 0, .., p N` in this order, each path exactly once, and its
root is the root of `d N` as decoded: no tile is resolved twice and no child
is added. -/
theorem chain_resolution_terminates (x : Externals) (archive : Archive F A E) (N : Nat)
    (p : Nat → String) (d : Nat → Tileset F A)
    (hread : ∀ i, i ≤ N → archive.read (p i) = .ok (d i))
    (hlink : ∀ i, i < N →
      (d i).root.children = [] ∧
        ∃ c, (d i).root.content = some c ∧ c.uri = p (i + 1) ∧
          x.absolute c.uri = false ∧ iends_with c.uri ".json" = true)
    (hend : (d N).root.resolved x = true) :
    (∃ n0, ∀ n, n0 ≤ n →
        Archive.tileset x archive n (p 0) true
          = .ok ({ d 0 with root := (d N).root }, (List.range (N + 1)).map p)) ∧
      ∀ i, i ≤ N → ((List.range (N + 1)).map p).count (p i) = 1 := by
  constructor
  · refine ⟨(d N).root.depth + N, ?_⟩
    intro n hn
    rw [tileset_true_of_read x archive n (hread 0 (Nat.zero_le N)),
      chain_include x archive N p d hread hlink hend N 0 (by omega) n hn]
    simp only [List.range_eq_range', List.range'_succ, List.map_cons]
  · intro i hi
    apply List.count_eq_one_of_mem
      (chain_paths_nodup x archive N p d hread hlink hend)
    exact List.mem_map.2 ⟨i, List.mem_range.2 (by omega), rfl⟩

/-- C6 at the chain `a.json`, `b.json`, `child.json` of the sample archive. -/
theorem chain_resolution_terminates_witness :
    (Sample.chainDoc 2).root.resolved (Sample.externals false) = true ∧
      ((∃ n0, ∀ n, n0 ≤ n →
          Archive.tileset (Sample.externals false) Sample.archive n "a.json" true
            = .ok ({ Sample.chainDoc 0 with root := (Sample.chainDoc 2).root },
                (List.range (2 + 1)).map Sample.chainPath)) ∧
        ∀ i, i ≤ 2 →
          ((List.range (2 + 1)).map Sample.chainPath).count (Sample.chainPath i) = 1) :=
  ⟨rfl, chain_resolution_terminates (Sample.externals false) Sample.archive 2
    Sample.chainPath Sample.chainDoc
    (fun i hi => by interval_cases i <;> rfl)
    (fun i hi => by interval_cases i <;> exact ⟨rfl, _, rfl, rfl, rfl, rfl⟩)
    rfl⟩

/-- C3 as stated fails: `tileset.json` has a root with one child, a childless
tile with content `child.json`, and `child.json` has a root with two
childless, content-free children; `Archive::tileset("tileset.json", true)`
returns a root with one child, the root of `child.json`, not with that root's
two children, whatever the default of `includeExternal`. -/
theorem two_level_splice_counterexample :
    Sample.archive.read "tileset.json" = .ok (Sample.document "1.0" Sample.outerRoot) ∧
      Sample.outerRoot.children = [Sample.reference] ∧
      Sample.archive.read "child.json" = .ok (Sample.document "0.0" Sample.childRoot) ∧
      Sample.childRoot.children = [Sample.leaf1, Sample.leaf2] ∧
      Archive.tileset (Sample.externals false) Sample.archive 4 "tileset.json" true
        = .ok (Sample.document "1.0"
            (Sample.tile (Sample.sphere 10) none none [Sample.childRoot]),
          ["tileset.json", "child.json"]) ∧
      Archive.tileset (Sample.externals true) Sample.archive 4 "tileset.json" true
        = .ok (Sample.document "1.0"
            (Sample.tile (Sample.sphere 10) none none [Sample.childRoot]),
          ["tileset.json", "child.json"]) ∧
      (Sample.tile (Sample.sphere 10) none none [Sample.childRoot]).children.length = 1 ∧
      (Sample.tile (Sample.sphere 10) none none [Sample.childRoot]).children
        ≠ Sample.childRoot.children := by
  refine ⟨rfl, rfl, rfl, rfl, rfl, rfl, rfl, ?_⟩
  intro h
  have := congrArg List.length h
  simp [Sample.tile, Sample.childRoot] at this

/-- C3, amended. For a tileset whose root has exactly one child, childless
with `content.uri = "child.json"`, and an archive in which `child.json`
decodes to a document whose root has exactly two childless, content-free
children, `Archive::tileset(path, true)` returns a tree whose root has
exactly one child, the root tile of the inner document with its two children
under it: the tree has three levels. It reads the two documents once each. -/
theorem tileset_two_level_splice (x : Externals) (archive : Archive F A E) (fuel : Nat)
    (path : String) (outer inner : Tileset F A) (c k1 k2 : Tile F A)
    (content : TileContent F A)
    (ho : archive.read path = .ok outer) (hc : outer.root.children = [c])
    (hcc : c.children = []) (hco : c.content = some content)
    (huri : content.uri = "child.json") (habs : x.absolute "child.json" = false)
    (hi : archive.read "child.json" = .ok inner) (hk : inner.root.children = [k1, k2])
    (hk1 : k1.children = [] ∧ k1.content = none)
    (hk2 : k2.children = [] ∧ k2.content = none) :
    Archive.tileset x archive (fuel + 4) path true
      = .ok ({ outer with root := { outer.root with children := [inner.root] } },
          [path, "child.json"]) := by
  have hleaf : ∀ k : Tile F A, k.children = [] ∧ k.content = none → k.resolved x = true := by
    intro k hk0
    rw [Tile.resolved_iff]
    refine ⟨by simp [Tile.unresolved, hk0.2], ?_⟩
    rw [hk0.1]
    intro q hq
    cases hq
  have hres : inner.root.resolved x = true := by
    rw [Tile.resolved_iff]
    refine ⟨Tile.unresolved_of_children_ne_nil x (by rw [hk]; simp), ?_⟩
    intro k hkm
    rw [hk] at hkm
    simp only [List.mem_cons, List.mem_singleton, List.not_mem_nil, or_false] at hkm
    rcases hkm with rfl | rfl
    · exact hleaf _ hk1
    · exact hleaf _ hk2
  have hdepth : inner.root.depth ≤ fuel + 2 := by
    rw [Tile.depth_eq, hk]
    simp only [depthList, Tile.depth_eq, hk1.1, hk2.1]
    omega
  have hinner := includeTile_of_resolved x archive (fuel + 2) inner.root hres hdepth
  have hchild : includeTile x archive (fuel + 3) c = .ok (inner.root, ["child.json"]) := by
    rw [includeTile_unresolved x archive (fuel + 2) hcc hco (by rw [huri]; exact habs)
      (by rw [huri]; rfl), huri, hi]
    simp only [hinner]
  have hroot : includeTile x archive (fuel + 4) outer.root
      = .ok ({ outer.root with children := [inner.root] }, ["child.json"]) := by
    rw [includeTile_succ, includeBody_children x archive _ (by rw [hc]; simp), hc]
    simp only [includeChildren, hchild, List.append_nil]
  rw [tileset_true_of_read x archive _ ho]
  simp only [hroot]

/-- C3, amended, at `tileset.json` of the sample archive. -/
theorem tileset_two_level_splice_witness :
    Sample.outerRoot.children = [Sample.reference] ∧
      Sample.childRoot.children = [Sample.leaf1, Sample.leaf2] ∧
      Archive.tileset (Sample.externals false) Sample.archive (0 + 4) "tileset.json" true
        = .ok ({ Sample.document "1.0" Sample.outerRoot with
              root := { (Sample.document "1.0" Sample.outerRoot).root with
                children := [(Sample.document "0.0" Sample.childRoot).root] } },
            ["tileset.json", "child.json"]) :=
  ⟨rfl, rfl, tileset_two_level_splice (Sample.externals false) Sample.archive 0
    "tileset.json" (Sample.document "1.0" Sample.outerRoot)
    (Sample.document "0.0" Sample.childRoot) Sample.reference Sample.leaf1 Sample.leaf2
    { toCommonBase := Sample.base, boundingVolume := none, uri := "child.json" }
    rfl rfl rfl rfl rfl rfl rfl rfl ⟨rfl, rfl⟩ ⟨rfl, rfl⟩⟩

/-- C5 as stated fails: the root of `broken.json` has three UNRESOLVED
children, the second of which names a document the archive does not hold;
`Archive::tileset("broken.json", true)` throws the read error, whatever the
default of `includeExternal`, and returns a tree for no amount of fuel,
although the documents of the other two children are readable. -/
theorem partial_failure_counterexample :
    Sample.archive.read "broken.json" = .ok (Sample.document "1.0" Sample.brokenRoot) ∧
      Sample.brokenRoot.children = [Sample.reference, Sample.dangling, Sample.reference] ∧
      Sample.archive.read "missing.json" = .error "not found" ∧
      Archive.tileset (Sample.externals false) Sample.archive 4 "broken.json" true
        = .error "not found" ∧
      Archive.tileset (Sample.externals true) Sample.archive 4 "broken.json" true
        = .error "not found" ∧
      (¬ ∃ fuel ts r,
        Archive.tileset (Sample.externals false) Sample.archive fuel "broken.json" true
          = .ok (ts, r)) ∧
      ¬ ∃ fuel ts r,
        Archive.tileset (Sample.externals true) Sample.archive fuel "broken.json" true
          = .ok (ts, r) := by
  refine ⟨rfl, rfl, rfl, rfl, rfl, ?_, ?_⟩
  · rintro ⟨fuel, ts, r, h⟩
    exact tileset_ne_ok_of_error (Sample.externals false) Sample.archive
      (show Archive.tileset (Sample.externals false) Sample.archive 4 "broken.json" true
        = .error "not found" from rfl) fuel ts r h
  · rintro ⟨fuel, ts, r, h⟩
    exact tileset_ne_ok_of_error (Sample.externals true) Sample.archive
      (show Archive.tileset (Sample.externals true) Sample.archive 4 "broken.json" true
        = .error "not found" from rfl) fuel ts r h

/-- C5, amended. A partial failure is not recovered: for every tree in which
the walk of `include` arrives at an UNRESOLVED tile whose document cannot be
opened or decoded, `Archive::tileset(path, true)` fails as a whole; it throws
the error of that read for every sufficient fuel and returns a tree for no
fuel, so no tile is handed back with its original content pointer and no
resolved sibling is delivered. -/
theorem tileset_fails_on_unreadable (x : Externals) (archive : Archive F A E)
    (path : String) (ts : Tileset F A) (e : E)
    (hread : archive.read path = .ok ts) (hfail : FailsAt x archive e ts.root) :
    (∃ n0, ∀ n, n0 ≤ n → Archive.tileset x archive n path true = .error e) ∧
      ∀ n ts' r, Archive.tileset x archive n path true ≠ .ok (ts', r) := by
  obtain ⟨n0, h0⟩ := hfail.includeTile_error
  have hn0 : Archive.tileset x archive n0 path true = .error e := by
    rw [tileset_true_of_read x archive n0 hread]
    simp only [h0]
  refine ⟨⟨n0, ?_⟩, ?_⟩
  · intro n hn
    exact Outcome.le_error (tileset_mono x archive hn path true) hn0
  · intro n ts' r
    exact tileset_ne_ok_of_error x archive hn0 n ts' r

/-- C5, amended, at `broken.json` of the sample archive. -/
theorem tileset_fails_on_unreadable_witness :
    Sample.archive.read "broken.json" = .ok (Sample.document "1.0" Sample.brokenRoot) ∧
      ((∃ n0, ∀ n, n0 ≤ n →
          Archive.tileset (Sample.externals false) Sample.archive n "broken.json" true
            = .error "not found") ∧
        ∀ n ts' r,
          Archive.tileset (Sample.externals false) Sample.archive n "broken.json" true
            ≠ .ok (ts', r)) :=
  ⟨rfl, tileset_fails_on_unreadable (Sample.externals false) Sample.archive "broken.json"
    (Sample.document "1.0" Sample.brokenRoot) "not found" rfl
    (@FailsAt.child Int Unit String (Sample.externals false) Sample.archive "not found"
      Sample.brokenRoot Sample.dangling [Sample.reference] [Sample.reference] rfl
      (fun s hs => by
        rw [List.mem_singleton] at hs
        subst hs
        exact ⟨3, Sample.childRoot, ["child.json"], rfl⟩)
      (@FailsAt.here Int Unit String (Sample.externals false) Sample.archive "not found"
        Sample.dangling
        { toCommonBase := Sample.base, boundingVolume := none, uri := "missing.json" }
        rfl rfl rfl rfl rfl))⟩

end Claims

end threedtiles
